import Mathlib

/-!
Verification of the `androidremote` agent core against its specification.

Shallow embedding of the relevant parts of `agent-core`:
* `protocol.rs` — wire frame codec (`Message::encode` / `Message::decode`);
* `files.rs` — file download chunking and upload reassembly;
* `desktop.rs` — tile encoder (dirty-tile diffing, keyframe policy);
* `connection.rs` — reconnect backoff and the heartbeat-timeout branch;
* `session.rs` — the desktop-quality event branch.

Machine integers are modelled as `Nat` with explicit `% 2^w` at the points
where the source performs a cast; byte buffers are `List Nat` whose elements
are below 256 (carried as a hypothesis where it matters).  Floating-point
arithmetic in the backoff computation is modelled exactly over `ℚ`.
-/

namespace AndroidRemote

/-! ## Protocol constants (protocol.rs) -/

/-- Header size: 1 (type) + 2 (length) + 2 (channel) + 4 (request_id) = 9 bytes. -/
def HEADER_SIZE : Nat := 9

/-- Maximum payload size (16 MB). -/
def MAX_PAYLOAD_SIZE : Nat := 16 * 1024 * 1024

/-- Opcode of file download data frames. -/
def FILE_DOWNLOAD_DATA : Nat := 0x33

/-! ## Little-endian byte (de)composition, mirroring `bytes::BufMut` / `Buf` -/

/-- Bytes written by `put_u16_le` for a 16-bit value. -/
def u16leBytes (v : Nat) : List Nat := [v % 256, v / 256 % 256]

/-- Bytes written by `put_u32_le` for a 32-bit value. -/
def u32leBytes (v : Nat) : List Nat :=
  [v % 256, v / 256 % 256, v / 65536 % 256, v / 16777216 % 256]

/-- Value read by `get_u16_le` from two bytes. -/
def get_u16_le (b0 b1 : Nat) : Nat := b0 + 256 * b1

/-- Value read by `get_u32_le` from four bytes. -/
def get_u32_le (b0 b1 b2 b3 : Nat) : Nat := b0 + 256 * b1 + 65536 * b2 + 16777216 * b3

theorem u16leBytes_length (v : Nat) : (u16leBytes v).length = 2 := rfl

theorem u32leBytes_length (v : Nat) : (u32leBytes v).length = 4 := rfl

theorem get_u16_le_roundtrip (v : Nat) (h : v < 65536) :
    get_u16_le (v % 256) (v / 256 % 256) = v := by
  simp only [get_u16_le]
  omega

theorem get_u32_le_roundtrip (v : Nat) (h : v < 4294967296) :
    get_u32_le (v % 256) (v / 256 % 256) (v / 65536 % 256) (v / 16777216 % 256) = v := by
  simp only [get_u32_le]
  omega

/-! ## Message (protocol.rs) -/

/-- Raw message header (`Header` in protocol.rs).  `msg_type` is a u8,
`length` and `channel` are u16, `request_id` is a u32. -/
structure Header where
  msg_type : Nat
  length : Nat
  channel : Nat
  request_id : Nat
deriving DecidableEq, Repr

/-- A decoded protocol message (`Message` in protocol.rs). -/
structure Message where
  header : Header
  payload : List Nat
deriving DecidableEq, Repr

instance : Inhabited Message := ⟨⟨⟨0, 0, 0, 0⟩, []⟩⟩

/-- `Message::new`: the length field is `payload.len() as u16`, i.e. truncated
modulo 2^16. -/
def Message.new (msg_type channel request_id : Nat) (payload : List Nat) : Message :=
  ⟨⟨msg_type, payload.length % 65536, channel, request_id⟩, payload⟩

/-- `Message::control`: a control-plane message (channel 0). -/
def Message.control (msg_type request_id : Nat) (payload : List Nat) : Message :=
  Message.new msg_type 0 request_id payload

/-- Errors of `Message::decode` (`ProtocolError` in protocol.rs; only the
variants reachable from `decode` matter here). -/
inductive ProtocolError where
  | PayloadTooLarge (size : Nat)
deriving DecidableEq, Repr

/-- `Message::encode`: 9-byte header followed by the payload. -/
def Message.encode (m : Message) : List Nat :=
  m.header.msg_type % 256 ::
    (u16leBytes m.header.length ++ u16leBytes m.header.channel ++
      u32leBytes m.header.request_id ++ m.payload)

/-- `Message::decode`: returns `none` when not enough data, an error when the
decoded payload length exceeds `MAX_PAYLOAD_SIZE`, otherwise the message and
the consumed byte count. -/
def Message.decode (buf : List Nat) : Except ProtocolError (Option (Message × Nat)) :=
  if buf.length < HEADER_SIZE then .ok none
  else
    let msg_type := buf.getD 0 0
    let length := get_u16_le (buf.getD 1 0) (buf.getD 2 0)
    let channel := get_u16_le (buf.getD 3 0) (buf.getD 4 0)
    let request_id := get_u32_le (buf.getD 5 0) (buf.getD 6 0) (buf.getD 7 0) (buf.getD 8 0)
    let payload_len := length
    let total_len := HEADER_SIZE + payload_len
    if buf.length < total_len then .ok none
    else if payload_len > MAX_PAYLOAD_SIZE then .error (.PayloadTooLarge payload_len)
    else .ok (some (⟨⟨msg_type, length, channel, request_id⟩,
      (buf.drop HEADER_SIZE).take payload_len⟩, total_len))

/-- C1 (amended): for a frame whose header fields are in range for their wire
types and whose length field equals the payload length (as `Message::new`
produces for payloads of at most 65535 bytes), decoding the encoding returns
the frame unchanged together with a consumed count of 9 plus the payload
length. -/
theorem decode_encode_roundtrip (m : Message)
    (ht : m.header.msg_type < 256)
    (hc : m.header.channel < 65536)
    (hr : m.header.request_id < 4294967296)
    (hl : m.header.length = m.payload.length)
    (hp : m.payload.length < 65536) :
    Message.decode (Message.encode m) =
      .ok (some (m, HEADER_SIZE + m.payload.length)) := by
  obtain ⟨⟨t, l, c, r⟩, p⟩ := m
  simp only [Message.encode, Message.decode, u16leBytes, u32leBytes, HEADER_SIZE,
    List.cons_append, List.nil_append] at *
  subst hl
  have henc : (t % 256 :: p.length % 256 :: p.length / 256 % 256 :: c % 256 :: c / 256 % 256 ::
      r % 256 :: r / 256 % 256 :: r / 65536 % 256 :: r / 16777216 % 256 :: p).length
      = 9 + p.length := by simp; omega
  rw [henc]
  have h1 : ¬ (9 + p.length < 9) := by omega
  rw [if_neg h1]
  simp only [List.getD_cons_zero, List.getD_cons_succ]
  rw [get_u16_le_roundtrip p.length hp, get_u16_le_roundtrip c hc, get_u32_le_roundtrip r hr]
  have h2 : ¬ (9 + p.length < 9 + p.length) := by omega
  rw [if_neg h2]
  have h3 : ¬ (p.length > MAX_PAYLOAD_SIZE) := by
    simp only [MAX_PAYLOAD_SIZE]; omega
  rw [if_neg h3]
  have ht' : t % 256 = t := Nat.mod_eq_of_lt ht
  simp [ht', List.drop, List.take_length]

/-- Witness for `decode_encode_roundtrip` at a concrete frame. -/
theorem decode_encode_roundtrip_witness :
    Message.decode (Message.encode (Message.new 3 0 42 [1, 2, 3])) =
      .ok (some (Message.new 3 0 42 [1, 2, 3], HEADER_SIZE + 3)) :=
  decode_encode_roundtrip (Message.new 3 0 42 [1, 2, 3])
    (by decide) (by decide) (by decide) (by decide) (by decide)

/-- Unfolding of `encode` on a message built by `new`. -/
theorem encode_new (t ch rid : Nat) (p : List Nat) :
    Message.encode (Message.new t ch rid p) =
      t % 256 :: (u16leBytes (p.length % 65536) ++ u16leBytes ch ++ u32leBytes rid ++ p) := rfl

/-- Evaluation of `decode` on a buffer with at least 9 bytes exposed. -/
theorem decode_cons9 (b0 b1 b2 b3 b4 b5 b6 b7 b8 : Nat) (tail : List Nat) :
    Message.decode (b0 :: b1 :: b2 :: b3 :: b4 :: b5 :: b6 :: b7 :: b8 :: tail) =
      (if 9 + tail.length < 9 + get_u16_le b1 b2 then .ok none
       else if get_u16_le b1 b2 > MAX_PAYLOAD_SIZE then
         .error (.PayloadTooLarge (get_u16_le b1 b2))
       else .ok (some (⟨⟨b0, get_u16_le b1 b2, get_u16_le b3 b4, get_u32_le b5 b6 b7 b8⟩,
         tail.take (get_u16_le b1 b2)⟩, 9 + get_u16_le b1 b2))) := by
  simp only [Message.decode, HEADER_SIZE, List.getD_cons_zero, List.getD_cons_succ,
    List.length_cons]
  rw [show tail.length + 1 + 1 + 1 + 1 + 1 + 1 + 1 + 1 + 1 = 9 + tail.length from by omega]
  rw [if_neg (show ¬ (9 + tail.length < 9) from by omega)]
  rfl

/-- A frame built by `Message::new` from a payload of 65536 bytes: the u16
length field wraps to 0. -/
def bigPayloadMsg : Message := Message.new 1 0 0 (List.replicate 65536 0)

/-- C1 (counterexample): the claim quantifies over all frames, including those
whose payload is longer than 65535 bytes.  For the frame built by
`Message::new` from a 65536-byte payload, the length field wraps to 0, so
decoding its encoding consumes 9 bytes and returns an empty payload — not the
original frame and not 9 + 65536 bytes. -/
theorem decode_encode_roundtrip_cex :
    Message.decode (Message.encode bigPayloadMsg) ≠
      .ok (some (bigPayloadMsg, HEADER_SIZE + bigPayloadMsg.payload.length)) := by
  have hlen : bigPayloadMsg.payload.length = 65536 := by
    rw [show bigPayloadMsg.payload = List.replicate 65536 0 from rfl, List.length_replicate]
  have henc : Message.encode bigPayloadMsg =
      1 :: 0 :: 0 :: 0 :: 0 :: 0 :: 0 :: 0 :: 0 :: List.replicate 65536 0 := by
    rw [show bigPayloadMsg = Message.new 1 0 0 (List.replicate 65536 0) from rfl, encode_new,
      List.length_replicate, Nat.mod_self,
      show u16leBytes 0 = [0, 0] from rfl, show u32leBytes 0 = [0, 0, 0, 0] from rfl,
      show (1 : Nat) % 256 = 1 from rfl]
    rfl
  have hdec : Message.decode (Message.encode bigPayloadMsg) =
      .ok (some (⟨⟨1, 0, 0, 0⟩, []⟩, 9 + 0)) := by
    rw [henc, decode_cons9, show get_u16_le 0 0 = 0 from rfl,
      show get_u32_le 0 0 0 0 = 0 from rfl, List.length_replicate,
      if_neg (by omega), if_neg (show ¬ ((0 : Nat) > MAX_PAYLOAD_SIZE) by decide),
      show (List.replicate 65536 (0 : Nat)).take 0 = [] from rfl]
  rw [hdec, hlen]
  intro h
  simp only [Except.ok.injEq, Option.some.injEq, Prod.mk.injEq, HEADER_SIZE] at h
  omega

/-- C10: `Message::decode` is total on byte buffers — it never returns an
error.  The decoded payload length comes from a 16-bit field, hence is at most
65535 < 16 MiB, so the `PayloadTooLarge` branch is unreachable; every input
yields either `none` (not enough data) or a decoded message with its consumed
count. -/
theorem decode_never_errors (buf : List Nat) (hbytes : ∀ b ∈ buf, b < 256) :
    ∃ r, Message.decode buf = .ok r := by
  by_cases h9 : buf.length < HEADER_SIZE
  · exact ⟨none, by simp [Message.decode, h9]⟩
  · have hb1 : buf.getD 1 0 < 256 := by
      have : 1 < buf.length := by simp [HEADER_SIZE] at h9; omega
      rw [List.getD_eq_getElem buf 0 this]
      exact hbytes _ (List.getElem_mem this)
    have hb2 : buf.getD 2 0 < 256 := by
      have : 2 < buf.length := by simp [HEADER_SIZE] at h9; omega
      rw [List.getD_eq_getElem buf 0 this]
      exact hbytes _ (List.getElem_mem this)
    have hsmall : get_u16_le (buf.getD 1 0) (buf.getD 2 0) ≤ MAX_PAYLOAD_SIZE := by
      simp only [get_u16_le, MAX_PAYLOAD_SIZE]
      omega
    simp only [Message.decode, if_neg h9]
    by_cases hfull : buf.length < HEADER_SIZE + get_u16_le (buf.getD 1 0) (buf.getD 2 0)
    · exact ⟨none, by rw [if_pos hfull]⟩
    · rw [if_neg hfull, if_neg (by omega)]
      exact ⟨_, rfl⟩

/-- Witness for `decode_never_errors` at a concrete 9-byte heartbeat frame. -/
theorem decode_never_errors_witness :
    ∃ r, Message.decode [3, 0, 0, 0, 0, 0, 0, 0, 0] = .ok r :=
  decode_never_errors [3, 0, 0, 0, 0, 0, 0, 0, 0] (by decide)

/-! ## File download chunking (files.rs, `FileHandler::handle_download`) -/

/-- Chunk size for file downloads (64 KB). -/
def DOWNLOAD_CHUNK_SIZE : Nat := 64 * 1024

/-- Rust slice `chunks(n)`: consecutive chunks of `n` elements, the last chunk
possibly shorter.  (`chunks(0)` panics in Rust; files.rs always calls it with
`DOWNLOAD_CHUNK_SIZE.max(1) > 0`, so the `n = 0` case here is unreachable.) -/
def chunksOf (n : Nat) : List α → List (List α)
  | [] => []
  | x :: xs =>
    if _h : n = 0 then []
    else (x :: xs).take n :: chunksOf n ((x :: xs).drop n)
termination_by l => l.length
decreasing_by
  simp only [List.length_drop, List.length_cons]
  omega

theorem chunksOf_nil (n : Nat) : chunksOf n ([] : List α) = [] := by
  rw [chunksOf]

theorem chunksOf_eq_cons (n : Nat) (l : List α) (hn : n ≠ 0) (hl : l ≠ []) :
    chunksOf n l = l.take n :: chunksOf n (l.drop n) := by
  cases l with
  | nil => simp at hl
  | cons x xs =>
    rw [chunksOf, dif_neg hn]

/-- Number of chunks is the ceiling of the length divided by the chunk size. -/
theorem chunksOf_length (n : Nat) (l : List α) (hn : 0 < n) (hl : l ≠ []) :
    (chunksOf n l).length = (l.length + n - 1) / n := by
  rw [chunksOf_eq_cons n l (by omega) hl]
  have h1 : 1 ≤ l.length := by
    cases l with
    | nil => simp at hl
    | cons a t => simp
  by_cases hle : l.length ≤ n
  · have hdrop : l.drop n = [] := by
      rw [List.drop_eq_nil_iff]
      omega
    rw [hdrop, chunksOf_nil]
    simp only [List.length_cons, List.length_nil]
    exact (Nat.div_eq_of_lt_le (by omega) (by omega)).symm
  · have hne : l.drop n ≠ [] := by
      intro hcon
      rw [List.drop_eq_nil_iff] at hcon
      omega
    have hrec := chunksOf_length n (l.drop n) hn hne
    rw [List.length_drop] at hrec
    simp only [List.length_cons, hrec]
    have he1 : l.length - n + n - 1 = l.length - 1 := by omega
    have he2 : l.length + n - 1 = (l.length - 1) + n := by omega
    rw [he1, he2, Nat.add_div_right _ hn]
termination_by l.length
decreasing_by
  simp only [List.length_drop]
  omega

/-- Concatenating the chunks recovers the original list. -/
theorem chunksOf_join (n : Nat) (l : List α) (hn : 0 < n) : (chunksOf n l).flatten = l := by
  by_cases hl : l = []
  · subst hl
    rw [chunksOf_nil]
    rfl
  · rw [chunksOf_eq_cons n l (by omega) hl]
    simp only [List.flatten_cons]
    rw [chunksOf_join n (l.drop n) hn, List.take_append_drop]
termination_by l.length
decreasing_by
  simp only [List.length_drop]
  have h1 : 1 ≤ l.length := by
    cases l with
    | nil => simp at hl
    | cons a t => simp
  omega

/-- The frames sent by `FileHandler::handle_download` for a file whose
contents are `data`, in order: one `FILE_DOWNLOAD_DATA` control frame per
chunk with payload `seq (u32 LE) || total (u32 LE) || chunk`, plus — for an
empty file — a single chunk with `seq = 0, total = 1` and no bytes. -/
def downloadFrames (request_id : Nat) (data : List Nat) : List Message :=
  let total_chunks := if data.isEmpty then 1
    else (data.length + DOWNLOAD_CHUNK_SIZE - 1) / DOWNLOAD_CHUNK_SIZE
  let loopFrames := (chunksOf (max DOWNLOAD_CHUNK_SIZE 1) data).enum.map
    (fun p => Message.control FILE_DOWNLOAD_DATA request_id
      (u32leBytes p.1 ++ u32leBytes total_chunks ++ p.2))
  loopFrames ++
    (if data.isEmpty then
      [Message.control FILE_DOWNLOAD_DATA request_id (u32leBytes 0 ++ u32leBytes 1)]
     else [])

theorem take4_u32le_append (a : Nat) (rest : List Nat) :
    (u32leBytes a ++ rest).take 4 = u32leBytes a := by
  rw [show (4 : Nat) = (u32leBytes a).length from (u32leBytes_length a).symm, List.take_left]

theorem drop4_u32le_append (a : Nat) (rest : List Nat) :
    (u32leBytes a ++ rest).drop 4 = rest := by
  rw [show (4 : Nat) = (u32leBytes a).length from (u32leBytes_length a).symm, List.drop_left]

theorem drop8_u32le_append (a b : Nat) (rest : List Nat) :
    (u32leBytes a ++ u32leBytes b ++ rest).drop 8 = rest := by
  rw [show (8 : Nat) = (u32leBytes a ++ u32leBytes b).length from by
      rw [List.length_append, u32leBytes_length, u32leBytes_length],
    List.drop_left]

theorem downloadFrames_nil (request_id : Nat) :
    downloadFrames request_id [] =
      [Message.control FILE_DOWNLOAD_DATA request_id (u32leBytes 0 ++ u32leBytes 1)] := by
  simp [downloadFrames, chunksOf_nil]

theorem downloadFrames_eq (request_id : Nat) (data : List Nat) (hd : data ≠ []) :
    downloadFrames request_id data = (chunksOf 65536 data).enum.map
      (fun p => Message.control FILE_DOWNLOAD_DATA request_id
        (u32leBytes p.1 ++ u32leBytes ((data.length + 65535) / 65536) ++ p.2)) := by
  have hne : data.isEmpty = false := by
    simpa [List.isEmpty_iff] using hd
  simp [downloadFrames, hne, DOWNLOAD_CHUNK_SIZE]

/-- C2: handling a `FILE_DOWNLOAD_REQ` for a file of `s` bytes emits exactly
`⌈s / 65536⌉` `FILE_DOWNLOAD_DATA` frames (exactly 1 when `s = 0`), all on
channel 0 with the request's `request_id`; the `i`-th frame's payload starts
with `i` as u32 LE followed by the common `total` as u32 LE, and
concatenating the chunk bytes (payload minus the 8-byte prefix) over all
frames yields the file contents. -/
theorem download_frames_spec (request_id : Nat) (data : List Nat) :
    (downloadFrames request_id data).length =
      (if data.isEmpty then 1 else (data.length + 65535) / 65536) ∧
    (∀ m ∈ downloadFrames request_id data,
      m.header.msg_type = FILE_DOWNLOAD_DATA ∧ m.header.channel = 0 ∧
        m.header.request_id = request_id) ∧
    (∀ i, i < (downloadFrames request_id data).length →
      (((downloadFrames request_id data).getD i default).payload).take 4 = u32leBytes i ∧
      ((((downloadFrames request_id data).getD i default).payload).drop 4).take 4 =
        u32leBytes (if data.isEmpty then 1 else (data.length + 65535) / 65536)) ∧
    ((downloadFrames request_id data).map (fun m => m.payload.drop 8)).flatten = data := by
  by_cases hd : data = []
  · subst hd
    rw [downloadFrames_nil]
    refine ⟨by simp, ?_, ?_, ?_⟩
    · intro m hm
      rw [List.mem_singleton] at hm
      subst hm
      simp [Message.control, Message.new]
    · intro i hi
      simp only [List.length_cons, List.length_nil] at hi
      interval_cases i
      refine ⟨?_, ?_⟩
      · simp only [List.getD_cons_zero]
        show ((Message.control FILE_DOWNLOAD_DATA request_id
          (u32leBytes 0 ++ u32leBytes 1)).payload).take 4 = u32leBytes 0
        exact take4_u32le_append 0 (u32leBytes 1)
      · simp only [List.getD_cons_zero]
        show (((Message.control FILE_DOWNLOAD_DATA request_id
          (u32leBytes 0 ++ u32leBytes 1)).payload).drop 4).take 4 = u32leBytes 1
        show ((u32leBytes 0 ++ u32leBytes 1).drop 4).take 4 = u32leBytes 1
        rw [drop4_u32le_append]
        decide
    · show [((Message.control FILE_DOWNLOAD_DATA request_id
        (u32leBytes 0 ++ u32leBytes 1)).payload).drop 8].flatten = []
      show [(u32leBytes 0 ++ u32leBytes 1).drop 8].flatten = ([] : List Nat)
      decide
  · have hne : data.isEmpty = false := by
      simpa [List.isEmpty_iff] using hd
    have hCpos : (0 : Nat) < 65536 := by norm_num
    have hClen : (chunksOf 65536 data).length = (data.length + 65535) / 65536 := by
      have := chunksOf_length 65536 data hCpos hd
      simpa using this
    rw [downloadFrames_eq request_id data hd]
    refine ⟨?_, ?_, ?_, ?_⟩
    · simp [hne, List.enum_length, hClen]
    · intro m hm
      rw [List.mem_map] at hm
      obtain ⟨p, _, rfl⟩ := hm
      simp [Message.control, Message.new]
    · intro i hi
      simp only [List.length_map, List.enum_length] at hi
      have hiF : i < ((chunksOf 65536 data).enum.map
          (fun p => Message.control FILE_DOWNLOAD_DATA request_id
            (u32leBytes p.1 ++ u32leBytes ((data.length + 65535) / 65536) ++ p.2))).length := by
        simp [List.enum_length, hi]
      rw [List.getD_eq_getElem _ _ hiF, List.getElem_map, List.getElem_enum]
      refine ⟨?_, ?_⟩
      · show ((u32leBytes i ++ u32leBytes ((data.length + 65535) / 65536) ++
          (chunksOf 65536 data)[i]).take 4) = u32leBytes i
        rw [List.append_assoc]
        exact take4_u32le_append _ _
      · simp only [hne, if_false]
        show (((u32leBytes i ++ u32leBytes ((data.length + 65535) / 65536) ++
          (chunksOf 65536 data)[i]).drop 4).take 4) =
            u32leBytes ((data.length + 65535) / 65536)
        rw [List.append_assoc, drop4_u32le_append]
        exact take4_u32le_append _ _
    · rw [List.map_map]
      have hmaps : ((chunksOf 65536 data).enum.map
          ((fun m => m.payload.drop 8) ∘
            (fun p => Message.control FILE_DOWNLOAD_DATA request_id
              (u32leBytes p.1 ++ u32leBytes ((data.length + 65535) / 65536) ++ p.2)))) =
          (chunksOf 65536 data).enum.map Prod.snd := by
        refine List.map_congr_left ?_
        intro p _
        show (u32leBytes p.1 ++ u32leBytes ((data.length + 65535) / 65536) ++ p.2).drop 8 = p.2
        exact drop8_u32le_append _ _ _
      rw [hmaps, List.enum_map_snd]
      exact chunksOf_join 65536 data hCpos

/-! ## File upload reassembly (files.rs, `FileHandler::handle_upload_*`) -/

/-- Pending upload state: target path, accumulated data, expected size. -/
structure PendingUpload where
  path : String
  data : List Nat
  expected_size : Nat
deriving DecidableEq, Repr

/-- The `pending_uploads` table (`HashMap<u32, PendingUpload>`), as an
association list with unique keys. -/
abbrev PendingMap := List (Nat × PendingUpload)

/-- HashMap lookup. -/
def lookupP (m : PendingMap) (request_id : Nat) : Option PendingUpload :=
  (m.find? (fun p => p.1 = request_id)).map (fun p => p.2)

/-- HashMap insert (replaces any existing entry for the key). -/
def insertP (m : PendingMap) (request_id : Nat) (v : PendingUpload) : PendingMap :=
  (request_id, v) :: m.filter (fun p => ¬ p.1 = request_id)

/-- HashMap remove. -/
def removeP (m : PendingMap) (request_id : Nat) : PendingMap :=
  m.filter (fun p => ¬ p.1 = request_id)

/-- Observable side effects of the file handler: reply frames sent on the
connection (`FILE_RESULT` with a success flag, `FILE_UPLOAD_DONE`) and
filesystem writes (`fs.write_file`).  The JSON reply payloads carry exactly
the success flag, so the effects are modelled at that level. -/
inductive Effect where
  | sendFileResult (request_id : Nat) (success : Bool)
  | sendUploadDone (request_id : Nat) (success : Bool)
  | writeFile (path : String) (data : List Nat)
deriving DecidableEq, Repr

/-- `FileHandler::handle_upload_start`: registers the pending upload and
acknowledges with `FILE_RESULT{success: true}`. -/
def handle_upload_start (pending : PendingMap) (request_id : Nat) (path : String)
    (size : Nat) : PendingMap × List Effect :=
  (insertP pending request_id ⟨path, [], size⟩, [.sendFileResult request_id true])

/-- `FileHandler::handle_upload_data_msg`: payload is `[u32 seq][data...]`;
bails with an error when shorter than 4 bytes; appends the chunk to the
pending upload for the request id (warns and does nothing when there is
none); when the accumulated bytes reach the expected size, removes the
pending upload, writes the file and emits `FILE_UPLOAD_DONE{success: true}`. -/
def handle_upload_data_msg (pending : PendingMap) (request_id : Nat)
    (payload : List Nat) : Except String (PendingMap × List Effect) :=
  if payload.length < 4 then .error "FILE_UPLOAD_DATA payload too short"
  else
    let chunk_data := payload.drop 4
    match lookupP pending request_id with
    | some upload =>
      let upload' : PendingUpload := ⟨upload.path, upload.data ++ chunk_data,
        upload.expected_size⟩
      if upload'.data.length ≥ upload'.expected_size then
        .ok (removeP pending request_id,
          [.writeFile upload'.path upload'.data, .sendUploadDone request_id true])
      else
        .ok (insertP pending request_id upload', [])
    | none => .ok (pending, [])

/-- `FileHandler::handle_message` for a `FILE_UPLOAD_DATA` frame: on an error
result it sends `FILE_RESULT{success: false}` under the same request id. -/
def handle_upload_data_message (pending : PendingMap) (request_id : Nat)
    (payload : List Nat) : PendingMap × List Effect :=
  match handle_upload_data_msg pending request_id payload with
  | .ok r => r
  | .error _ => (pending, [.sendFileResult request_id false])

/-- Sequential processing of a list of `FILE_UPLOAD_DATA` frames carrying the
given request id, each frame given as `(seq, chunk)` with wire payload
`seq (u32 LE) || chunk`. -/
def runUploadData (request_id : Nat) (pending : PendingMap) :
    List (Nat × List Nat) → PendingMap × List Effect
  | [] => (pending, [])
  | f :: rest =>
    let r := handle_upload_data_message pending request_id (u32leBytes f.1 ++ f.2)
    let r' := runUploadData request_id r.1 rest
    (r'.1, r.2 ++ r'.2)

theorem runUploadData_cons (request_id : Nat) (pending : PendingMap) (f : Nat × List Nat)
    (rest : List (Nat × List Nat)) :
    runUploadData request_id pending (f :: rest) =
      ((runUploadData request_id
          (handle_upload_data_message pending request_id (u32leBytes f.1 ++ f.2)).1 rest).1,
        (handle_upload_data_message pending request_id (u32leBytes f.1 ++ f.2)).2 ++
          (runUploadData request_id
            (handle_upload_data_message pending request_id (u32leBytes f.1 ++ f.2)).1 rest).2) :=
  rfl

theorem upload_payload_length (seq : Nat) (chunk : List Nat) :
    (u32leBytes seq ++ chunk).length = 4 + chunk.length := by
  rw [List.length_append, u32leBytes_length]

theorem upload_payload_drop4 (seq : Nat) (chunk : List Nat) :
    (u32leBytes seq ++ chunk).drop 4 = chunk := drop4_u32le_append seq chunk

theorem lookupP_single (request_id : Nat) (u : PendingUpload) :
    lookupP [(request_id, u)] request_id = some u := by
  simp [lookupP, List.find?]

theorem removeP_single (request_id : Nat) (u : PendingUpload) :
    removeP [(request_id, u)] request_id = [] := by
  simp [removeP, List.filter]

theorem insertP_single (request_id : Nat) (u v : PendingUpload) :
    insertP [(request_id, u)] request_id v = [(request_id, v)] := by
  simp [insertP, List.filter]

/-- One data frame on a singleton pending table, short of the threshold. -/
theorem upload_step_under (request_id : Nat) (path : String) (s : Nat) (buf : List Nat)
    (seq : Nat) (chunk : List Nat)
    (hlt : buf.length + chunk.length < s) :
    handle_upload_data_message [(request_id, ⟨path, buf, s⟩)] request_id
      (u32leBytes seq ++ chunk) =
      ([(request_id, ⟨path, buf ++ chunk, s⟩)], []) := by
  simp only [handle_upload_data_message, handle_upload_data_msg, upload_payload_length,
    upload_payload_drop4, lookupP_single]
  rw [if_neg (by omega)]
  have hlen : buf.length + chunk.length < s := hlt
  rw [if_neg (by simp only [List.length_append]; omega)]
  rw [insertP_single]

/-- One data frame on a singleton pending table, reaching the threshold. -/
theorem upload_step_over (request_id : Nat) (path : String) (s : Nat) (buf : List Nat)
    (seq : Nat) (chunk : List Nat)
    (hge : buf.length + chunk.length ≥ s) :
    handle_upload_data_message [(request_id, ⟨path, buf, s⟩)] request_id
      (u32leBytes seq ++ chunk) =
      ([], [.writeFile path (buf ++ chunk), .sendUploadDone request_id true]) := by
  simp only [handle_upload_data_message, handle_upload_data_msg, upload_payload_length,
    upload_payload_drop4, lookupP_single]
  rw [if_neg (by omega)]
  rw [if_pos (by simp only [List.length_append]; omega)]
  rw [removeP_single]

/-- Running data frames whose total stays strictly below the expected size
only accumulates bytes: no write, no reply of any kind. -/
theorem runUploadData_under (request_id : Nat) (path : String) (s : Nat) (buf : List Nat)
    (frames : List (Nat × List Nat))
    (h : buf.length + ((frames.map (fun f => f.2.length)).sum) < s) :
    runUploadData request_id [(request_id, ⟨path, buf, s⟩)] frames =
      ([(request_id, ⟨path, buf ++ (frames.map (fun f => f.2)).flatten, s⟩)], []) := by
  induction frames generalizing buf with
  | nil => simp [runUploadData]
  | cons f rest ih =>
    simp only [List.map_cons, List.sum_cons] at h
    have hstep := upload_step_under request_id path s buf f.1 f.2 (by omega)
    rw [runUploadData_cons]
    simp only [hstep]
    have hrec := ih (buf ++ f.2) (by simp only [List.length_append]; omega)
    rw [hrec]
    simp [List.append_assoc]

/-- Core reassembly lemma: starting from an accumulated buffer, if every
proper prefix of the frames keeps the total below the expected size and the
full total reaches it, the run removes the pending upload and produces
exactly one write of the accumulated bytes followed by one
`FILE_UPLOAD_DONE{success: true}`. -/
theorem runUploadData_complete (request_id : Nat) (path : String) (s : Nat) (buf : List Nat)
    (frames : List (Nat × List Nat)) (hne : frames ≠ [])
    (hpre : ∀ k, k + 1 < frames.length →
      buf.length + (((frames.take (k + 1)).map (fun f => f.2.length)).sum) < s)
    (htot : buf.length + ((frames.map (fun f => f.2.length)).sum) ≥ s) :
    runUploadData request_id [(request_id, ⟨path, buf, s⟩)] frames =
      ([], [.writeFile path (buf ++ (frames.map (fun f => f.2)).flatten),
        .sendUploadDone request_id true]) := by
  induction frames generalizing buf with
  | nil => simp at hne
  | cons f rest ih =>
    cases rest with
    | nil =>
      simp only [List.map_cons, List.map_nil, List.sum_cons, List.sum_nil] at htot
      have hstep := upload_step_over request_id path s buf f.1 f.2 (by omega)
      rw [runUploadData_cons]
      simp only [hstep]
      simp [runUploadData]
    | cons g rest' =>
      have h0 := hpre 0 (by simp)
      simp only [List.take_succ_cons, List.take_zero, List.map_cons, List.map_nil,
        List.sum_cons, List.sum_nil, Nat.add_zero] at h0
      have hstep := upload_step_under request_id path s buf f.1 f.2 (by omega)
      rw [runUploadData_cons]
      simp only [hstep]
      have hrec := ih (buf ++ f.2) (by simp)
        (by
          intro k hk
          have h2 := hpre (k + 1) (by simpa using Nat.succ_lt_succ hk)
          simp only [List.take_succ_cons, List.map_cons, List.sum_cons] at h2
          simp only [List.length_append, List.take_succ_cons, List.map_cons, List.sum_cons]
          omega)
        (by
          simp only [List.map_cons, List.sum_cons] at htot
          simp only [List.length_append, List.map_cons, List.sum_cons]
          omega)
      simp [hrec, List.append_assoc]

/-- C3 (amended): for an upload of expected size `s` registered by
`FILE_UPLOAD_START{path, size: s}` under a request id, and for every nonempty
sequence of `FILE_UPLOAD_DATA` frames on that id whose chunk bodies first
reach `s` total bytes at the last frame (every proper prefix totals < `s`,
the full total is ≥ `s`): the run writes at `path` exactly the concatenation
of the chunk bodies in arrival order, emits `FILE_UPLOAD_DONE{success: true}`
exactly once, and emits no write and no DONE while fewer than `s` bytes are
buffered (the run of any proper prefix of the frames produces no effect). -/
theorem upload_reassembly (request_id : Nat) (path : String) (s : Nat)
    (frames : List (Nat × List Nat)) (hne : frames ≠ [])
    (hpre : ∀ k, k + 1 < frames.length →
      (((frames.take (k + 1)).map (fun f => f.2.length)).sum) < s)
    (htot : ((frames.map (fun f => f.2.length)).sum) ≥ s) :
    runUploadData request_id (handle_upload_start [] request_id path s).1 frames =
      ([], [.writeFile path ((frames.map (fun f => f.2)).flatten),
        .sendUploadDone request_id true]) ∧
    (handle_upload_start [] request_id path s).2 = [.sendFileResult request_id true] ∧
    (∀ k, k < frames.length →
      (runUploadData request_id (handle_upload_start [] request_id path s).1
        (frames.take k)).2 = []) := by
  have hstart : (handle_upload_start [] request_id path s).1 =
      [(request_id, ⟨path, [], s⟩)] := rfl
  refine ⟨?_, rfl, ?_⟩
  · rw [hstart]
    have hmain := runUploadData_complete request_id path s [] frames hne
      (fun k hk => by simpa using hpre k hk) (by simpa using htot)
    simpa using hmain
  · intro k hk
    rw [hstart]
    match k with
    | 0 => rfl
    | k + 1 =>
      have hU := runUploadData_under request_id path s [] (frames.take (k + 1))
        (by simpa using hpre k hk)
      rw [hU]

/-- Witness for `upload_reassembly`: size 5, two chunks "AB" then "CDE"
(the literal upload-reassembly scenario of the spec). -/
theorem upload_reassembly_witness :
    runUploadData 42 (handle_upload_start [] 42 "/tmp/x" 5).1
        [(0, [65, 66]), (1, [67, 68, 69])] =
      ([], [.writeFile "/tmp/x" [65, 66, 67, 68, 69], .sendUploadDone 42 true]) ∧
    (handle_upload_start [] 42 "/tmp/x" 5).2 = [.sendFileResult 42 true] ∧
    (∀ k, k < 2 →
      (runUploadData 42 (handle_upload_start [] 42 "/tmp/x" 5).1
        ([(0, [65, 66]), (1, [67, 68, 69])].take k)).2 = []) := by
  have h := upload_reassembly 42 "/tmp/x" 5 [(0, [65, 66]), (1, [67, 68, 69])]
    (by decide)
    (by
      intro k hk
      simp only [List.length_cons, List.length_nil] at hk
      have hk0 : k = 0 := by omega
      subst hk0
      decide)
    (by decide)
  simpa using h

/-- C3 (counterexample): the claim quantifies over every frame sequence whose
chunk bodies total at least `s`.  With `s = 1` and two one-byte chunks `[65]`
then `[66]`, the pending upload is committed at the first frame: the file is
written with `[65]` and the second chunk is dropped, so the bytes written
differ from the concatenation `[65, 66]` of all chunk bodies. -/
theorem upload_reassembly_cex :
    (runUploadData 42 (handle_upload_start [] 42 "/tmp/x" 1).1
        [(0, [65]), (1, [66])]).2 =
      [Effect.writeFile "/tmp/x" [65], Effect.sendUploadDone 42 true] ∧
    Effect.writeFile "/tmp/x" [65, 66] ∉
      (runUploadData 42 (handle_upload_start [] 42 "/tmp/x" 1).1
        [(0, [65]), (1, [66])]).2 := by
  decide

/-- C9 (amended): a `FILE_UPLOAD_DATA` frame whose request id has no
registered pending upload and whose payload has at least the 4-byte seq
prefix is dropped: no file write, no reply frame of any kind, and the
pending-upload table is unchanged. -/
theorem upload_data_unknown_id (pending : PendingMap) (request_id : Nat)
    (payload : List Nat) (hnone : lookupP pending request_id = none)
    (hlen : 4 ≤ payload.length) :
    handle_upload_data_message pending request_id payload = (pending, []) := by
  have h1 : handle_upload_data_msg pending request_id payload = .ok (pending, []) := by
    unfold handle_upload_data_msg
    rw [if_neg (by omega), hnone]
  simp [handle_upload_data_message, h1]

/-- Witness for `upload_data_unknown_id` on an empty pending table. -/
theorem upload_data_unknown_id_witness :
    handle_upload_data_message [] 7 [0, 0, 0, 0] = ([], []) :=
  upload_data_unknown_id [] 7 [0, 0, 0, 0] (by decide) (by decide)

/-- C9 (counterexample): the claim also quantifies over payloads shorter than
the 4-byte seq prefix.  For such a payload the handler bails with an error
and `handle_message` replies with `FILE_RESULT{success: false}` — a reply
frame is sent, contradicting the claim. -/
theorem upload_data_unknown_id_cex :
    (handle_upload_data_message [] 7 []).2 = [Effect.sendFileResult 7 false] ∧
    (handle_upload_data_message [] 7 []).2 ≠ [] := by
  decide

/-! ## Reconnect backoff (connection.rs, `reconnect_delay` / `rand_simple`) -/

/-- `reconnect_delay`: for attempt 0 the delay is zero; otherwise binary
exponential backoff `base * 2^(attempt-1)` capped at `max`, then ±25% jitter
`delay * 0.25 * (2*rand - 1)` is added and the result is floored at `base`
(`(delay + jitter).max(base)`).  The source computes in f64; the arithmetic
is modelled exactly over ℚ, with the random source value `r` passed in. -/
def reconnect_delay (base maxd : ℚ) (attempt : Nat) (r : ℚ) : ℚ :=
  if attempt = 0 then 0
  else
    let delay := min (base * 2 ^ (attempt - 1)) maxd
    let jitter := delay * (1 / 4) * (2 * r - 1)
    max (delay + jitter) base

/-- `rand_simple`: jitter source derived from the clock, `(nanos % 1000) / 1000`,
always in [0, 1). -/
def rand_simple (nanos : Nat) : ℚ := ((nanos % 1000 : Nat) : ℚ) / 1000

/-- C6 (counterexample): the claimed upper bound `delay(a) ≤ max` fails —
jitter is added after the cap at `max`.  With `base = 1`, `max = 60`,
attempt 7 and a random source value of 0.999, the delay is
`60 + 60/4 * 0.998 = 74.97 > 60`. -/
theorem reconnect_delay_cex : reconnect_delay 1 60 7 (999 / 1000) > 60 := by
  norm_num [reconnect_delay, min_def, max_def]

/-- C6 (amended): for `0 < base ≤ max` and a random source value in [0, 1):
attempt 0 sleeps zero; every attempt ≥ 1 satisfies
`base ≤ delay(attempt) < 1.25 * max` (the upper bound is 25% above `max`,
not `max`, because jitter is applied after the cap); and attempt 1 lies
within 75%–125% of `base`. -/
theorem reconnect_delay_bounds (base maxd r : ℚ) (attempt : Nat)
    (hb : 0 < base) (hbm : base ≤ maxd) (hr0 : 0 ≤ r) (hr1 : r < 1) :
    reconnect_delay base maxd 0 r = 0 ∧
    (1 ≤ attempt → base ≤ reconnect_delay base maxd attempt r ∧
      reconnect_delay base maxd attempt r < 5 / 4 * maxd) ∧
    (3 / 4 * base ≤ reconnect_delay base maxd 1 r ∧
      reconnect_delay base maxd 1 r ≤ 5 / 4 * base) := by
  have h2r : 2 * r - 1 < 1 := by linarith
  have h2r' : -1 ≤ 2 * r - 1 := by linarith
  refine ⟨by simp [reconnect_delay], ?_, ?_⟩
  · intro ha
    have hne : attempt ≠ 0 := by omega
    simp only [reconnect_delay, if_neg hne]
    set d : ℚ := min (base * 2 ^ (attempt - 1)) maxd with hd
    have hpow : (1 : ℚ) ≤ 2 ^ (attempt - 1) := one_le_pow₀ (by norm_num)
    have hdbase : base ≤ d := le_min (le_mul_of_one_le_right hb.le hpow) hbm
    have hdmax : d ≤ maxd := min_le_right _ _
    have hdpos : 0 < d := lt_of_lt_of_le hb hdbase
    constructor
    · exact le_max_right _ _
    · have hj : d * (1 / 4) * (2 * r - 1) < d * (1 / 4) := by
        have h4 : 0 < d * (1 / 4) := by positivity
        calc d * (1 / 4) * (2 * r - 1) < d * (1 / 4) * 1 :=
              mul_lt_mul_of_pos_left h2r h4
          _ = d * (1 / 4) := mul_one _
      have hmax0 : 0 < maxd := lt_of_lt_of_le hb hbm
      refine max_lt ?_ (by linarith)
      linarith
  · simp only [reconnect_delay, if_neg (by omega : (1 : Nat) ≠ 0)]
    rw [show (1 : Nat) - 1 = 0 from rfl, pow_zero, mul_one, min_eq_left hbm]
    have hj : base * (1 / 4) * (2 * r - 1) ≤ base * (1 / 4) := by
      have h4 : (0 : ℚ) ≤ base * (1 / 4) := by positivity
      calc base * (1 / 4) * (2 * r - 1) ≤ base * (1 / 4) * 1 :=
            mul_le_mul_of_nonneg_left (by linarith) h4
        _ = base * (1 / 4) := mul_one _
    constructor
    · have h1 := le_max_right (base + base * (1 / 4) * (2 * r - 1)) base
      linarith
    · refine max_le ?_ (by linarith)
      linarith

/-- Witness for `reconnect_delay_bounds` at `base = 1`, `max = 60`,
`r = 1/2`, attempt 3. -/
theorem reconnect_delay_bounds_witness :
    (0 : ℚ) < 1 ∧
    (reconnect_delay 1 60 0 (1 / 2) = 0 ∧
      (1 ≤ 3 → (1 : ℚ) ≤ reconnect_delay 1 60 3 (1 / 2) ∧
        reconnect_delay 1 60 3 (1 / 2) < 5 / 4 * 60) ∧
      (3 / 4 * 1 ≤ reconnect_delay 1 60 1 (1 / 2) ∧
        reconnect_delay 1 60 1 (1 / 2) ≤ 5 / 4 * 1)) :=
  ⟨by norm_num,
    reconnect_delay_bounds 1 60 (1 / 2) 3 (by norm_num) (by norm_num) (by norm_num)
      (by norm_num)⟩

/-- The jitter source is always in [0, 1). -/
theorem rand_simple_mem (nanos : Nat) : 0 ≤ rand_simple nanos ∧ rand_simple nanos < 1 := by
  unfold rand_simple
  constructor
  · positivity
  · rw [div_lt_one (by norm_num)]
    have h := Nat.mod_lt nanos (show 0 < 1000 by norm_num)
    exact_mod_cast h

/-! ## Heartbeat timeout and reconnect loop (connection.rs) -/

/-- How a connection attempt (`connect_and_run`) ends: `Ok(())` or `Err`. -/
inductive AttemptOutcome where
  | ok
  | err
deriving DecidableEq, Repr

/-- Events the connection loop emits to the owning process (only the one
relevant here). -/
inductive LoopEvent where
  | disconnected
deriving DecidableEq, Repr

/-- The timeout used by the heartbeat branch: `heartbeat_interval * 3`. -/
def heartbeat_timeout (interval : Nat) : Nat := interval * 3

/-- The heartbeat-tick branch of `connect_and_run`: when
`last_pong.elapsed() > heartbeat_timeout` the function warns and
`return Ok(())` — the attempt ends with a graceful outcome.  Otherwise
(`none`) the attempt continues. -/
def heartbeatTickEnds (elapsed timeout : Nat) : Option AttemptOutcome :=
  if elapsed > timeout then some .ok else none

/-- `connection_loop` after `connect_and_run` returns: on `Ok` the attempt
counter resets to 0, on `Err` it is incremented (u32 `saturating_add(1)`);
in both cases a `Disconnected` event is then emitted before the next
attempt. -/
def connectionLoopStep (attempt : Nat) (outcome : AttemptOutcome) : Nat × List LoopEvent :=
  match outcome with
  | .ok => (0, [.disconnected])
  | .err => (min (attempt + 1) 4294967295, [.disconnected])

/-- C7 (counterexample): the claim says a heartbeat timeout ends the attempt
as an error so that the counter increments.  In the code the branch returns
`Ok(())`: at attempt counter 5 with interval 10 and 31 time units since the
last pong, the attempt ends with the `ok` outcome and the counter resets to
0 instead of incrementing to 6. -/
theorem heartbeat_timeout_cex :
    heartbeatTickEnds 31 (heartbeat_timeout 10) = some AttemptOutcome.ok ∧
    connectionLoopStep 5 AttemptOutcome.ok = (0, [LoopEvent.disconnected]) ∧
    (0 : Nat) ≠ 5 + 1 := by
  decide

/-- C7 (amended): whenever a heartbeat tick fires with
`now - last_pong > 3 * heartbeat_interval`, the current attempt ends — but
with `Ok(())`, so the attempt counter resets to 0 rather than incrementing —
and a `Disconnected` event is emitted to the owning process before the next
attempt begins. -/
theorem heartbeat_timeout_ends_attempt (elapsed interval attempt : Nat)
    (h : elapsed > interval * 3) :
    heartbeatTickEnds elapsed (heartbeat_timeout interval) = some AttemptOutcome.ok ∧
    connectionLoopStep attempt AttemptOutcome.ok = (0, [LoopEvent.disconnected]) := by
  refine ⟨?_, rfl⟩
  simp [heartbeatTickEnds, heartbeat_timeout, h]

/-- Witness for `heartbeat_timeout_ends_attempt` at elapsed 31, interval 10,
attempt 5. -/
theorem heartbeat_timeout_ends_attempt_witness :
    31 > 10 * 3 ∧
    (heartbeatTickEnds 31 (heartbeat_timeout 10) = some AttemptOutcome.ok ∧
      connectionLoopStep 5 AttemptOutcome.ok = (0, [LoopEvent.disconnected])) :=
  ⟨by decide, heartbeat_timeout_ends_attempt 31 10 5 (by decide)⟩

/-! ## Tile encoder (desktop.rs) -/

/-- Tile size in pixels (64x64). -/
def TILE_SIZE : Nat := 64

/-- Frame flag: keyframe. -/
def FLAG_KEYFRAME : Nat := 0x01

/-- A single encoded tile (`TileData`).  `x`, `y`, `w`, `h` are u16 in the
source (`as u16` casts from u32 pixel coordinates). -/
structure TileData where
  x : Nat
  y : Nat
  w : Nat
  h : Nat
  data : List Nat
  flags : Nat
deriving DecidableEq, Repr

instance : Inhabited TileData := ⟨⟨0, 0, 0, 0, [], 0⟩⟩

/-- Tile-based screen differ and encoder (`TileEncoder`). -/
structure TileEncoder where
  width : Nat
  height : Nat
  tiles_x : Nat
  tiles_y : Nat
  prev_frame : List Nat
  quality : Nat
  force_keyframe : Bool
deriving DecidableEq, Repr

/-- `TileEncoder::new`: ceil-divided tile grid, empty previous frame, first
frame forced to be a keyframe. -/
def TileEncoder.new (width height quality : Nat) : TileEncoder :=
  { width := width, height := height,
    tiles_x := (width + TILE_SIZE - 1) / TILE_SIZE,
    tiles_y := (height + TILE_SIZE - 1) / TILE_SIZE,
    prev_frame := [],
    quality := quality,
    force_keyframe := true }

/-- `TileEncoder::set_quality`: clamps to [1, 100]. -/
def TileEncoder.set_quality (e : TileEncoder) (quality : Nat) : TileEncoder :=
  { e with quality := min (max quality 1) 100 }

/-- `TileEncoder::request_keyframe`. -/
def TileEncoder.request_keyframe (e : TileEncoder) : TileEncoder :=
  { e with force_keyframe := true }

/-- `TileEncoder::tile_changed`: any row of the tile differs between the new
frame (at `stride`) and the previous frame (at stride `width * 4`); rows
falling outside either buffer count as changed. -/
def TileEncoder.tile_changed (e : TileEncoder) (frame : List Nat)
    (stride px py tw th : Nat) : Bool :=
  (List.range th).any fun row =>
    let y := py + row
    let new_start := y * stride + px * 4
    let new_end := new_start + tw * 4
    let old_start := y * (e.width * 4) + px * 4
    let old_end := old_start + tw * 4
    if new_end > frame.length ∨ old_end > e.prev_frame.length then true
    else decide ((frame.drop new_start).take (tw * 4) ≠
      (e.prev_frame.drop old_start).take (tw * 4))

/-- `TileEncoder::extract_tile_rgb`: BGRA to RGB per pixel, row-major over the
tile; out-of-range pixels become black. -/
def extract_tile_rgb (frame : List Nat) (stride px py tw th : Nat) : List Nat :=
  (List.range th).flatMap fun row =>
    let row_start := (py + row) * stride + px * 4
    (List.range tw).flatMap fun col =>
      let offset := row_start + col * 4
      if offset + 2 < frame.length then
        [frame.getD (offset + 2) 0, frame.getD (offset + 1) 0, frame.getD offset 0]
      else [0, 0, 0]

/-- `TileEncoder::encode_frame`.  JPEG compression
(`encode_jpeg_tile`, backed by the external turbojpeg collaborator, out of
scope per the spec) is abstracted as the function parameter
`jpeg rgb tile_w tile_h quality`; no claim depends on the produced bytes.
Returns the emitted tiles in row-major cell order and the updated encoder
(previous frame stored, `force_keyframe` cleared). -/
def TileEncoder.encode_frame (jpeg : List Nat → Nat → Nat → Nat → List Nat)
    (e : TileEncoder) (frame : List Nat) (stride : Nat) :
    List TileData × TileEncoder :=
  let is_keyframe := e.force_keyframe || e.prev_frame.isEmpty
  let tiles := (List.range e.tiles_y).flatMap fun ty =>
    (List.range e.tiles_x).filterMap fun tx =>
      let pixel_x := tx * TILE_SIZE
      let pixel_y := ty * TILE_SIZE
      let tile_w := min (e.width - pixel_x) TILE_SIZE
      let tile_h := min (e.height - pixel_y) TILE_SIZE
      if ¬ is_keyframe ∧ ¬ e.prev_frame.isEmpty ∧
          ¬ (e.tile_changed frame stride pixel_x pixel_y tile_w tile_h) then none
      else
        some { x := pixel_x % 65536, y := pixel_y % 65536,
               w := tile_w % 65536, h := tile_h % 65536,
               data := jpeg (extract_tile_rgb frame stride pixel_x pixel_y tile_w tile_h)
                 tile_w tile_h e.quality,
               flags := if is_keyframe then FLAG_KEYFRAME else 0 }
  (tiles, { e with prev_frame := frame, force_keyframe := false })

theorem filterMap_some_fun (f : α → β) (l : List α) :
    l.filterMap (fun a => some (f a)) = l.map f := by
  induction l with
  | nil => rfl
  | cons a t ih => simp [List.filterMap_cons, ih]

/-- On a keyframe call the grid is emitted in full. -/
theorem encode_frame_keyframe_tiles (jpeg : List Nat → Nat → Nat → Nat → List Nat)
    (e : TileEncoder) (frame : List Nat) (stride : Nat)
    (hkf : e.force_keyframe = true ∨ e.prev_frame = []) :
    (TileEncoder.encode_frame jpeg e frame stride).1 =
      (List.range e.tiles_y).flatMap (fun ty => (List.range e.tiles_x).map (fun tx =>
        { x := (tx * TILE_SIZE) % 65536, y := (ty * TILE_SIZE) % 65536,
          w := (min (e.width - tx * TILE_SIZE) TILE_SIZE) % 65536,
          h := (min (e.height - ty * TILE_SIZE) TILE_SIZE) % 65536,
          data := jpeg
            (extract_tile_rgb frame stride (tx * TILE_SIZE) (ty * TILE_SIZE)
              (min (e.width - tx * TILE_SIZE) TILE_SIZE)
              (min (e.height - ty * TILE_SIZE) TILE_SIZE))
            (min (e.width - tx * TILE_SIZE) TILE_SIZE)
            (min (e.height - ty * TILE_SIZE) TILE_SIZE) e.quality,
          flags := FLAG_KEYFRAME })) := by
  have hk : (e.force_keyframe || e.prev_frame.isEmpty) = true := by
    cases hkf with
    | inl h => simp [h]
    | inr h => simp [h]
  simp only [TileEncoder.encode_frame, hk]
  simp [filterMap_some_fun]

/-- On a non-keyframe call only tiles with `tile_changed` are emitted. -/
theorem encode_frame_diff_tiles (jpeg : List Nat → Nat → Nat → Nat → List Nat)
    (e : TileEncoder) (frame : List Nat) (stride : Nat)
    (hkf : e.force_keyframe = false) (hprev : e.prev_frame ≠ []) :
    (TileEncoder.encode_frame jpeg e frame stride).1 =
      (List.range e.tiles_y).flatMap (fun ty => (List.range e.tiles_x).filterMap (fun tx =>
        if e.tile_changed frame stride (tx * TILE_SIZE) (ty * TILE_SIZE)
            (min (e.width - tx * TILE_SIZE) TILE_SIZE)
            (min (e.height - ty * TILE_SIZE) TILE_SIZE) = true then
          some { x := (tx * TILE_SIZE) % 65536, y := (ty * TILE_SIZE) % 65536,
                 w := (min (e.width - tx * TILE_SIZE) TILE_SIZE) % 65536,
                 h := (min (e.height - ty * TILE_SIZE) TILE_SIZE) % 65536,
                 data := jpeg
                   (extract_tile_rgb frame stride (tx * TILE_SIZE) (ty * TILE_SIZE)
                     (min (e.width - tx * TILE_SIZE) TILE_SIZE)
                     (min (e.height - ty * TILE_SIZE) TILE_SIZE))
                   (min (e.width - tx * TILE_SIZE) TILE_SIZE)
                   (min (e.height - ty * TILE_SIZE) TILE_SIZE) e.quality,
                 flags := 0 }
        else none)) := by
  have hie : e.prev_frame.isEmpty = false := by
    simpa [List.isEmpty_iff] using hprev
  simp only [TileEncoder.encode_frame, hkf, hie]
  simp only [Bool.false_or, Bool.not_eq_true, Bool.false_eq_true, not_false_eq_true,
    true_and, if_false]
  refine congrArg (List.flatMap (List.range e.tiles_y)) (funext fun ty => ?_)
  refine congrArg (fun f => List.filterMap f (List.range e.tiles_x)) (funext fun tx => ?_)
  cases hc : e.tile_changed frame stride (tx * TILE_SIZE) (ty * TILE_SIZE)
      (min (e.width - tx * TILE_SIZE) TILE_SIZE)
      (min (e.height - ty * TILE_SIZE) TILE_SIZE) <;> simp [hc]

/-- Semantics of `tile_changed`: true iff some row is out of bounds in either
buffer or its byte slices differ. -/
theorem tile_changed_iff (e : TileEncoder) (frame : List Nat)
    (stride px py tw th : Nat) :
    e.tile_changed frame stride px py tw th = true ↔
      ∃ row < th,
        ((py + row) * stride + px * 4 + tw * 4 > frame.length ∨
         (py + row) * (e.width * 4) + px * 4 + tw * 4 > e.prev_frame.length ∨
         (frame.drop ((py + row) * stride + px * 4)).take (tw * 4) ≠
           (e.prev_frame.drop ((py + row) * (e.width * 4) + px * 4)).take (tw * 4)) := by
  unfold TileEncoder.tile_changed
  rw [List.any_eq_true]
  constructor
  · rintro ⟨row, hmem, hp⟩
    rw [List.mem_range] at hmem
    refine ⟨row, hmem, ?_⟩
    by_cases hb : (py + row) * stride + px * 4 + tw * 4 > frame.length ∨
        (py + row) * (e.width * 4) + px * 4 + tw * 4 > e.prev_frame.length
    · rcases hb with hb | hb
      · exact Or.inl hb
      · exact Or.inr (Or.inl hb)
    · rw [if_neg hb] at hp
      exact Or.inr (Or.inr (of_decide_eq_true hp))
  · rintro ⟨row, hrow, hcase⟩
    refine ⟨row, List.mem_range.mpr hrow, ?_⟩
    by_cases hb : (py + row) * stride + px * 4 + tw * 4 > frame.length ∨
        (py + row) * (e.width * 4) + px * 4 + tw * 4 > e.prev_frame.length
    · rw [if_pos hb]
    · rw [if_neg hb]
      rcases hcase with hc | hc | hc
      · exact absurd (Or.inl hc) hb
      · exact absurd (Or.inr hc) hb
      · exact decide_eq_true hc

/-- A tile whose rows are all within both buffers and byte-identical is
reported unchanged. -/
theorem tile_changed_false_of_eq (e : TileEncoder) (frame : List Nat)
    (stride px py tw th : Nat)
    (hbounds : ∀ row < th,
      (py + row) * stride + px * 4 + tw * 4 ≤ frame.length ∧
      (py + row) * (e.width * 4) + px * 4 + tw * 4 ≤ e.prev_frame.length)
    (hsame : ∀ row < th,
      (frame.drop ((py + row) * stride + px * 4)).take (tw * 4) =
        (e.prev_frame.drop ((py + row) * (e.width * 4) + px * 4)).take (tw * 4)) :
    e.tile_changed frame stride px py tw th = false := by
  rw [← Bool.not_eq_true, tile_changed_iff]
  push_neg
  intro row hrow
  obtain ⟨hb1, hb2⟩ := hbounds row hrow
  exact ⟨by omega, by omega, hsame row hrow⟩

/-- A tile with a differing row is reported changed. -/
theorem tile_changed_true_of_diff (e : TileEncoder) (frame : List Nat)
    (stride px py tw th row : Nat) (hrow : row < th)
    (hdiff : (frame.drop ((py + row) * stride + px * 4)).take (tw * 4) ≠
      (e.prev_frame.drop ((py + row) * (e.width * 4) + px * 4)).take (tw * 4)) :
    e.tile_changed frame stride px py tw th = true := by
  rw [tile_changed_iff]
  exact ⟨row, hrow, Or.inr (Or.inr hdiff)⟩

/-- Any row of any in-grid cell lies within a buffer of `height * width * 4`
bytes laid out at stride `width * 4`. -/
theorem tile_row_bound (width height ty tx row : Nat)
    (_hty : ty < (height + TILE_SIZE - 1) / TILE_SIZE)
    (htx : tx < (width + TILE_SIZE - 1) / TILE_SIZE)
    (hrow : row < min (height - ty * TILE_SIZE) TILE_SIZE) :
    (ty * TILE_SIZE + row) * (width * 4) + tx * TILE_SIZE * 4 +
      (min (width - tx * TILE_SIZE) TILE_SIZE) * 4 ≤ height * (width * 4) := by
  simp only [TILE_SIZE] at *
  have hy : ty * 64 + row < height := by omega
  have hstep : tx * 64 * 4 + (min (width - tx * 64) 64) * 4 ≤ width * 4 := by omega
  have hmul : (ty * 64 + row + 1) * (width * 4) ≤ height * (width * 4) :=
    Nat.mul_le_mul_right _ (by omega)
  rw [Nat.add_mul, Nat.one_mul] at hmul
  linarith [hstep, hmul]

/-- `filterMap` over `range n` with exactly one hit. -/
theorem range_filterMap_single {β : Type} (n c : Nat) (f : Nat → Option β) (t : β)
    (hc : c < n) (hft : f c = some t) (hnone : ∀ x, x < n → x ≠ c → f x = none) :
    (List.range n).filterMap f = [t] := by
  induction n with
  | zero => exact absurd hc (Nat.not_lt_zero c)
  | succ m ih =>
    rw [List.range_succ, List.filterMap_append]
    by_cases hcm : c = m
    · subst hcm
      have h1 : (List.range c).filterMap f = [] :=
        List.filterMap_eq_nil_iff.mpr (fun x hx => by
          have hxc := List.mem_range.mp hx
          exact hnone x (by omega) (by omega))
      rw [h1]
      simp [List.filterMap, hft]
    · have hrec := ih (by omega) (fun x hx hne => hnone x (by omega) hne)
      rw [hrec]
      have h2 : List.filterMap f [m] = [] := by
        simp [List.filterMap, hnone m (by omega) (by omega)]
      rw [h2, List.append_nil]

/-- `flatMap` over `range n` with exactly one nonempty image. -/
theorem range_flatMap_single {β : Type} (n c : Nat) (g : Nat → List β) (t : β)
    (hc : c < n) (hgc : g c = [t]) (hnone : ∀ y, y < n → y ≠ c → g y = []) :
    (List.range n).flatMap g = [t] := by
  induction n with
  | zero => exact absurd hc (Nat.not_lt_zero c)
  | succ m ih =>
    rw [List.range_succ, List.flatMap_append]
    by_cases hcm : c = m
    · subst hcm
      have h1 : (List.range c).flatMap g = [] :=
        List.flatMap_eq_nil_iff.mpr
          (fun y hy => hnone y (by have := List.mem_range.mp hy; omega)
            (by have := List.mem_range.mp hy; omega))
      rw [h1]
      simp [hgc]
    · have hrec := ih (by omega) (fun y hy hne => hnone y (by omega) hne)
      rw [hrec]
      have h2 : List.flatMap [m] g = [] := by
        simp [hnone m (by omega) (by omega)]
      rw [h2, List.append_nil]

/-- C4 (amended): for a freshly constructed `TileEncoder` of dimensions
`width x height` (u16-range dimensions) and a non-empty BGRA buffer laid out
at stride `width * 4` covering the whole screen (`height * width * 4` bytes):
the first `encode_frame` call returns exactly `tiles_x * tiles_y` tiles
(`ceil(width/64) * ceil(height/64)`), all flagged as keyframe, with each
cell's clipped geometry present; a second call with a byte-identical buffer
returns zero tiles; and a second call whose bytes differ only inside one
cell (all tile-row slices outside that cell equal, some row slice inside it
different) returns exactly one tile with that cell's geometry and flags 0.
The stride and coverage conditions are necessary: `tile_changed` treats rows
that fall outside either buffer as changed, and compares the previous frame
at stride `width * 4`. -/
theorem tile_encoder_spec (jpeg : List Nat → Nat → Nat → Nat → List Nat)
    (width height quality : Nat) (buf buf2 : List Nat)
    (hw16 : width < 65536) (hh16 : height < 65536)
    (hbuf : buf ≠ []) (hlen : buf.length = height * (width * 4))
    (hlen2 : buf2.length = height * (width * 4)) :
    (((TileEncoder.new width height quality).encode_frame jpeg buf (width * 4)).1.length =
        ((width + 63) / 64) * ((height + 63) / 64) ∧
      (∀ t ∈ ((TileEncoder.new width height quality).encode_frame jpeg buf (width * 4)).1,
        t.flags = FLAG_KEYFRAME) ∧
      (∀ ty, ty < (height + 63) / 64 → ∀ tx, tx < (width + 63) / 64 →
        ∃ t ∈ ((TileEncoder.new width height quality).encode_frame jpeg buf (width * 4)).1,
          t.x = tx * 64 ∧ t.y = ty * 64 ∧ t.w = min (width - tx * 64) 64 ∧
          t.h = min (height - ty * 64) 64 ∧ t.flags = FLAG_KEYFRAME)) ∧
    ((((TileEncoder.new width height quality).encode_frame jpeg buf
        (width * 4)).2.encode_frame jpeg buf (width * 4)).1 = []) ∧
    (∀ cy, cy < (height + 63) / 64 → ∀ cx, cx < (width + 63) / 64 →
      (∀ ty, ty < (height + 63) / 64 → ∀ tx, tx < (width + 63) / 64 →
        ¬ (ty = cy ∧ tx = cx) → ∀ row, row < min (height - ty * 64) 64 →
          (buf2.drop ((ty * 64 + row) * (width * 4) + tx * 64 * 4)).take
              ((min (width - tx * 64) 64) * 4) =
            (buf.drop ((ty * 64 + row) * (width * 4) + tx * 64 * 4)).take
              ((min (width - tx * 64) 64) * 4)) →
      (∃ row, row < min (height - cy * 64) 64 ∧
        (buf2.drop ((cy * 64 + row) * (width * 4) + cx * 64 * 4)).take
            ((min (width - cx * 64) 64) * 4) ≠
          (buf.drop ((cy * 64 + row) * (width * 4) + cx * 64 * 4)).take
            ((min (width - cx * 64) 64) * 4)) →
      ((((TileEncoder.new width height quality).encode_frame jpeg buf
          (width * 4)).2.encode_frame jpeg buf2 (width * 4)).1.map
        (fun t => (t.x, t.y, t.w, t.h, t.flags)) =
        [(cx * 64, cy * 64, min (width - cx * 64) 64, min (height - cy * 64) 64, 0)])) := by
  have htx : (TileEncoder.new width height quality).tiles_x = (width + 63) / 64 := by
    simp only [TileEncoder.new, TILE_SIZE]
    omega
  have hty : (TileEncoder.new width height quality).tiles_y = (height + 63) / 64 := by
    simp only [TileEncoder.new, TILE_SIZE]
    omega
  have he1 : (TileEncoder.new width height quality).encode_frame jpeg buf (width * 4) =
      (((TileEncoder.new width height quality).encode_frame jpeg buf (width * 4)).1,
        ⟨width, height, (width + 63) / 64, (height + 63) / 64, buf, quality, false⟩) := by
    refine Prod.ext rfl ?_
    show ({ TileEncoder.new width height quality with
      prev_frame := buf, force_keyframe := false } : TileEncoder) = _
    simp only [TileEncoder.new, TILE_SIZE]
    rw [show width + 64 - 1 = width + 63 from by omega,
      show height + 64 - 1 = height + 63 from by omega]
  refine ⟨⟨?_, ?_, ?_⟩, ?_, ?_⟩
  · -- (a) tile count
    rw [encode_frame_keyframe_tiles jpeg _ buf _ (Or.inl rfl), List.length_flatMap]
    simp only [Function.comp_def, List.length_map, List.length_range, htx, hty]
    rw [List.map_const', List.sum_replicate, List.length_range, smul_eq_mul]
    exact Nat.mul_comm _ _
  · -- (a) all keyframe flags
    intro t ht
    rw [encode_frame_keyframe_tiles jpeg _ buf _ (Or.inl rfl)] at ht
    rw [List.mem_flatMap] at ht
    obtain ⟨ty, _, hmem⟩ := ht
    rw [List.mem_map] at hmem
    obtain ⟨tx, _, rfl⟩ := hmem
    rfl
  · -- (a) cell geometry present
    intro ty hty' tx htx'
    rw [encode_frame_keyframe_tiles jpeg _ buf _ (Or.inl rfl)]
    refine ⟨_, List.mem_flatMap.mpr ⟨ty, List.mem_range.mpr (by rw [hty]; exact hty'),
      List.mem_map.mpr ⟨tx, List.mem_range.mpr (by rw [htx]; exact htx'), rfl⟩⟩,
      ?_, ?_, ?_, ?_, rfl⟩
    · show (tx * TILE_SIZE) % 65536 = tx * 64
      simp only [TILE_SIZE]
      omega
    · show (ty * TILE_SIZE) % 65536 = ty * 64
      simp only [TILE_SIZE]
      omega
    · show (min ((TileEncoder.new width height quality).width - tx * TILE_SIZE) TILE_SIZE)
        % 65536 = min (width - tx * 64) 64
      simp only [TileEncoder.new, TILE_SIZE]
      omega
    · show (min ((TileEncoder.new width height quality).height - ty * TILE_SIZE) TILE_SIZE)
        % 65536 = min (height - ty * 64) 64
      simp only [TileEncoder.new, TILE_SIZE]
      omega
  · -- (b) identical second call: zero tiles
    rw [he1, encode_frame_diff_tiles jpeg _ buf (width * 4) rfl (by exact hbuf)]
    rw [List.flatMap_eq_nil_iff]
    intro ty hty'
    rw [List.filterMap_eq_nil_iff]
    intro tx htx'
    rw [List.mem_range] at hty' htx'
    have hchanged : TileEncoder.tile_changed
        ⟨width, height, (width + 63) / 64, (height + 63) / 64, buf, quality, false⟩
        buf (width * 4) (tx * TILE_SIZE) (ty * TILE_SIZE)
        (min (width - tx * TILE_SIZE) TILE_SIZE)
        (min (height - ty * TILE_SIZE) TILE_SIZE) = false := by
      refine tile_changed_false_of_eq _ _ _ _ _ _ _ (fun row hrow => ?_) (fun row hrow => rfl)
      have hb := tile_row_bound width height ty tx row
        (by simpa [TILE_SIZE] using hty') (by simpa [TILE_SIZE] using htx')
        (by simpa using hrow)
      constructor
      · rw [hlen]
        exact hb
      · show (ty * TILE_SIZE + row) * (width * 4) + tx * TILE_SIZE * 4 +
          min (width - tx * TILE_SIZE) TILE_SIZE * 4 ≤ buf.length
        rw [hlen]
        exact hb
    rw [hchanged]
    simp
  · -- (c) single-cell diff
    intro cy hcy cx hcx hsame hdiff
    rw [he1, encode_frame_diff_tiles jpeg _ buf2 (width * 4) rfl (by exact hbuf)]
    have hbound2 : ∀ ty tx row : Nat, ty < (height + 63) / 64 → tx < (width + 63) / 64 →
        row < min (height - ty * TILE_SIZE) TILE_SIZE →
        (ty * TILE_SIZE + row) * (width * 4) + tx * TILE_SIZE * 4 +
          min (width - tx * TILE_SIZE) TILE_SIZE * 4 ≤ height * (width * 4) := by
      intro ty tx row h1 h2 h3
      exact tile_row_bound width height ty tx row (by simpa [TILE_SIZE] using h1)
        (by simpa [TILE_SIZE] using h2) h3
    have hunchanged : ∀ ty tx : Nat, ty < (height + 63) / 64 → tx < (width + 63) / 64 →
        ¬ (ty = cy ∧ tx = cx) →
        TileEncoder.tile_changed
          ⟨width, height, (width + 63) / 64, (height + 63) / 64, buf, quality, false⟩
          buf2 (width * 4) (tx * TILE_SIZE) (ty * TILE_SIZE)
          (min (width - tx * TILE_SIZE) TILE_SIZE)
          (min (height - ty * TILE_SIZE) TILE_SIZE) = false := by
      intro ty tx h1 h2 hne
      refine tile_changed_false_of_eq _ _ _ _ _ _ _ (fun row hrow => ?_) (fun row hrow => ?_)
      · have hb := hbound2 ty tx row h1 h2 hrow
        exact ⟨by rw [hlen2]; exact hb, by rw [hlen]; exact hb⟩
      · have hs := hsame ty h1 tx h2 hne row (by simpa [TILE_SIZE] using hrow)
        simpa [TILE_SIZE] using hs
    have hchangedc : TileEncoder.tile_changed
        ⟨width, height, (width + 63) / 64, (height + 63) / 64, buf, quality, false⟩
        buf2 (width * 4) (cx * TILE_SIZE) (cy * TILE_SIZE)
        (min (width - cx * TILE_SIZE) TILE_SIZE)
        (min (height - cy * TILE_SIZE) TILE_SIZE) = true := by
      obtain ⟨row, hrow, hd⟩ := hdiff
      refine tile_changed_true_of_diff _ _ _ _ _ _ _ row (by simpa [TILE_SIZE] using hrow) ?_
      simpa [TILE_SIZE] using hd
    rw [range_flatMap_single _ cy _
      ({ x := (cx * TILE_SIZE) % 65536, y := (cy * TILE_SIZE) % 65536,
         w := (min (width - cx * TILE_SIZE) TILE_SIZE) % 65536,
         h := (min (height - cy * TILE_SIZE) TILE_SIZE) % 65536,
         data := jpeg
           (extract_tile_rgb buf2 (width * 4) (cx * TILE_SIZE) (cy * TILE_SIZE)
             (min (width - cx * TILE_SIZE) TILE_SIZE)
             (min (height - cy * TILE_SIZE) TILE_SIZE))
           (min (width - cx * TILE_SIZE) TILE_SIZE)
           (min (height - cy * TILE_SIZE) TILE_SIZE) quality,
         flags := 0 } : TileData)
      (by exact hcy) ?gc ?gnone]
    case gc =>
      refine range_filterMap_single _ cx _ _ (by exact hcx) ?_ ?_
      · rw [if_pos hchangedc]
      · intro x hx hne
        rw [if_neg]
        rw [hunchanged cy x hcy hx (by omega)]
        simp
    case gnone =>
      intro y hy hne
      rw [List.filterMap_eq_nil_iff]
      intro x hx
      rw [List.mem_range] at hx
      rw [if_neg]
      rw [hunchanged y x hy hx (by omega)]
      simp
    · simp only [List.map_cons, List.map_nil]
      have e1 : (cx * TILE_SIZE) % 65536 = cx * 64 := by simp only [TILE_SIZE]; omega
      have e2 : (cy * TILE_SIZE) % 65536 = cy * 64 := by simp only [TILE_SIZE]; omega
      have e3 : (min (width - cx * TILE_SIZE) TILE_SIZE) % 65536 = min (width - cx * 64) 64 := by
        simp only [TILE_SIZE]
        omega
      have e4 : (min (height - cy * TILE_SIZE) TILE_SIZE) % 65536 =
          min (height - cy * 64) 64 := by
        simp only [TILE_SIZE]
        omega
      simp only [e1, e2, e3, e4]

/-- Witness for `tile_encoder_spec` on a 1x1 screen: the first call emits
exactly one keyframe tile. -/
theorem tile_encoder_spec_witness :
    ((TileEncoder.new 1 1 70).encode_frame (fun rgb _ _ _ => rgb) [1, 2, 3, 4] (1 * 4)).1.length =
      ((1 + 63) / 64) * ((1 + 63) / 64) :=
  (tile_encoder_spec (fun rgb _ _ _ => rgb) 1 1 70 [1, 2, 3, 4] [5, 6, 7, 8]
    (by decide) (by decide) (by decide) (by decide) (by decide)).1.1

/-- C4 (counterexample): the claim quantifies over every non-empty BGRA
buffer.  With a 1x1 screen and the one-byte buffer `[0]`, a second
`encode_frame` call with the byte-identical buffer returns 1 tile, not zero:
`tile_changed` treats the out-of-bounds tile row as changed. -/
theorem tile_encoder_spec_cex :
    (((((TileEncoder.new 1 1 70).encode_frame (fun rgb _ _ _ => rgb) [0] 4).2).encode_frame
        (fun rgb _ _ _ => rgb) [0] 4).1).length = 1 ∧ (1 : Nat) ≠ 0 := by
  exact ⟨by decide, by decide⟩

/-- C5 (amended): on every `encode_frame` call that is not a keyframe (no
forced keyframe and a previous frame exists), every returned tile sits on a
grid cell whose `tile_changed` test succeeded: some row of the tile is out
of bounds in one of the buffers or its bytes differ from the previous
frame's bytes at that tile position.  (On keyframe calls the encoder emits
every tile regardless of change — see the counterexample.) -/
theorem encoder_no_unchanged_tile (jpeg : List Nat → Nat → Nat → Nat → List Nat)
    (e : TileEncoder) (buf : List Nat) (stride : Nat)
    (hkf : e.force_keyframe = false) (hprev : e.prev_frame ≠ []) :
    ∀ t ∈ (e.encode_frame jpeg buf stride).1, ∃ tx ty, tx < e.tiles_x ∧ ty < e.tiles_y ∧
      t.x = (tx * TILE_SIZE) % 65536 ∧ t.y = (ty * TILE_SIZE) % 65536 ∧ t.flags = 0 ∧
      ∃ row, row < min (e.height - ty * TILE_SIZE) TILE_SIZE ∧
        ((ty * TILE_SIZE + row) * stride + tx * TILE_SIZE * 4 +
            (min (e.width - tx * TILE_SIZE) TILE_SIZE) * 4 > buf.length ∨
         (ty * TILE_SIZE + row) * (e.width * 4) + tx * TILE_SIZE * 4 +
            (min (e.width - tx * TILE_SIZE) TILE_SIZE) * 4 > e.prev_frame.length ∨
         (buf.drop ((ty * TILE_SIZE + row) * stride + tx * TILE_SIZE * 4)).take
             ((min (e.width - tx * TILE_SIZE) TILE_SIZE) * 4) ≠
           (e.prev_frame.drop ((ty * TILE_SIZE + row) * (e.width * 4) +
             tx * TILE_SIZE * 4)).take ((min (e.width - tx * TILE_SIZE) TILE_SIZE) * 4)) := by
  intro t ht
  rw [encode_frame_diff_tiles jpeg e buf stride hkf hprev] at ht
  rw [List.mem_flatMap] at ht
  obtain ⟨ty, hty, hmem⟩ := ht
  rw [List.mem_filterMap] at hmem
  obtain ⟨tx, htx, hfx⟩ := hmem
  rw [List.mem_range] at hty htx
  by_cases hc : e.tile_changed buf stride (tx * TILE_SIZE) (ty * TILE_SIZE)
      (min (e.width - tx * TILE_SIZE) TILE_SIZE)
      (min (e.height - ty * TILE_SIZE) TILE_SIZE) = true
  · rw [if_pos hc, Option.some.injEq] at hfx
    subst hfx
    obtain ⟨row, hrow, hdisj⟩ := (tile_changed_iff _ _ _ _ _ _ _).mp hc
    exact ⟨tx, ty, htx, hty, rfl, rfl, rfl, row, hrow, hdisj⟩
  · rw [if_neg hc] at hfx
    exact absurd hfx (by simp)

/-- Identity JPEG stub used for concrete evaluations (the compressor is an
external collaborator; no claim depends on its output bytes). -/
def idJpeg : List Nat → Nat → Nat → Nat → List Nat := fun rgb _ _ _ => rgb

/-- A mid-stream 1x1 encoder state: previous frame `[1, 2, 3, 4]`, no forced
keyframe. -/
def streamEnc : TileEncoder := ⟨1, 1, 1, 1, [1, 2, 3, 4], 70, false⟩

/-- The tile `streamEnc` emits for the frame `[9, 9, 9, 9]`. -/
def changedTile : TileData := ⟨0, 0, 1, 1, [9, 9, 9], 0⟩

/-- Witness for `encoder_no_unchanged_tile`: a differing 1x1 frame emits its
tile, and the tile's bytes differ from the previous frame. -/
theorem encoder_no_unchanged_tile_witness :
    ∃ tx ty, tx < streamEnc.tiles_x ∧ ty < streamEnc.tiles_y ∧
      changedTile.x = (tx * TILE_SIZE) % 65536 ∧
      changedTile.y = (ty * TILE_SIZE) % 65536 ∧ changedTile.flags = 0 ∧
      ∃ row, row < min (streamEnc.height - ty * TILE_SIZE) TILE_SIZE ∧
        ((ty * TILE_SIZE + row) * 4 + tx * TILE_SIZE * 4 +
            (min (streamEnc.width - tx * TILE_SIZE) TILE_SIZE) * 4 >
              ([9, 9, 9, 9] : List Nat).length ∨
         (ty * TILE_SIZE + row) * (streamEnc.width * 4) + tx * TILE_SIZE * 4 +
            (min (streamEnc.width - tx * TILE_SIZE) TILE_SIZE) * 4 >
              streamEnc.prev_frame.length ∨
         (([9, 9, 9, 9] : List Nat).drop
             ((ty * TILE_SIZE + row) * 4 + tx * TILE_SIZE * 4)).take
             ((min (streamEnc.width - tx * TILE_SIZE) TILE_SIZE) * 4) ≠
           (streamEnc.prev_frame.drop ((ty * TILE_SIZE + row) * (streamEnc.width * 4) +
             tx * TILE_SIZE * 4)).take
             ((min (streamEnc.width - tx * TILE_SIZE) TILE_SIZE) * 4)) :=
  encoder_no_unchanged_tile idJpeg streamEnc [9, 9, 9, 9] 4 rfl (by decide)
    changedTile (by decide)

/-- C5 (counterexample): the claim asserts the no-identical-tile property
also on calls where the keyframe flag is set.  After `request_keyframe`, a
second call with the byte-identical frame `[9, 9, 9, 9]` emits one keyframe
tile even though the frame equals the stored previous frame byte for byte. -/
theorem encoder_no_unchanged_tile_cex :
    (((((TileEncoder.new 1 1 70).encode_frame idJpeg [9, 9, 9, 9] 4).2.request_keyframe
       ).encode_frame idJpeg [9, 9, 9, 9] 4).1).length = 1 ∧
    ((((TileEncoder.new 1 1 70).encode_frame idJpeg [9, 9, 9, 9] 4).2.request_keyframe
       ).prev_frame = [9, 9, 9, 9]) ∧
    (∀ t ∈ ((((TileEncoder.new 1 1 70).encode_frame idJpeg [9, 9, 9, 9] 4).2.request_keyframe
       ).encode_frame idJpeg [9, 9, 9, 9] 4).1, t.flags = FLAG_KEYFRAME) := by
  exact ⟨by decide, by decide, by decide⟩

/-! ## Desktop quality events (session.rs) -/

/-- Desktop session configuration (`DesktopConfig` in desktop.rs). -/
structure DesktopConfig where
  quality : Nat
  fps : Nat
  encoding : String
deriving DecidableEq, Repr

/-- The `quality_rx` receive branch of the desktop session task in
`SessionManager::open_desktop` (session.rs): on receiving a new config it
only logs ("Quality changes are handled by restarting the session.  For now,
log the change") — the tile encoder is left untouched.  `set_quality` and
`request_keyframe` are never called anywhere in the crate. -/
def qualityChangeStep (e : TileEncoder) (_newConfig : DesktopConfig) : TileEncoder := e

/-- C8 (code bug): a live desktop session (mid-stream encoder at quality 70,
no pending keyframe) receives `DESKTOP_QUALITY{quality: 30}`.  The claim —
and the spec — require the encoder quality to become 30 (clamped) and the
next frame to be a keyframe; the code leaves the encoder unchanged: quality
stays 70 and no keyframe is requested. -/
theorem desktop_quality_change_ignored :
    qualityChangeStep streamEnc ⟨30, 15, "jpeg"⟩ = streamEnc ∧
    (qualityChangeStep streamEnc ⟨30, 15, "jpeg"⟩).quality = 70 ∧
    (qualityChangeStep streamEnc ⟨30, 15, "jpeg"⟩).quality ≠
      (streamEnc.set_quality 30).quality ∧
    (qualityChangeStep streamEnc ⟨30, 15, "jpeg"⟩).force_keyframe = false := by
  exact ⟨rfl, rfl, by decide, rfl⟩

end AndroidRemote
